import Mathlib

/-!
Shallow embedding of the binary-calculator repository:

* `BinOps` embeds `src/js/binary-operations.js` (string/integer conversion,
  arithmetic and shift operations on binary-digit strings).
* `Engine` embeds the `CalculatorEngine` class of
  `src/binary-calculator/js/calculator.js` (the stateful calculator controller).

Strings are modelled as `List Char`.  JavaScript numbers are modelled as
exact integers (`Nat`/`Int`); every numeric value manipulated in the claims'
domain is below `2^53`, where IEEE-754 doubles are exact, so this is faithful.
Where JavaScript performs 32-bit signed/unsigned coercions (`<<`, `>>`,
`>>> 0`) the embedding applies the corresponding `% 2^32` arithmetic
explicitly.
-/

set_option maxHeartbeats 1000000
set_option maxRecDepth 100000

namespace BinOps

/-- A character is a binary digit (`[01]` in the validation regex). -/
def isBinDigit (c : Char) : Bool := c == '0' || c == '1'

/-- Whitespace characters removed by `String.prototype.trim`. -/
def isWS (c : Char) : Bool := c == ' ' || c == '\t' || c == '\n' || c == '\r'

/-- `String.prototype.trim`: drop whitespace from both ends. -/
def jsTrim (s : List Char) : List Char :=
  ((s.dropWhile isWS).reverse.dropWhile isWS).reverse

/-- `binary.replace(/^0b/i, '')`: drop one leading `0b`/`0B` marker, if present
at the very start of the string. -/
def strip0b (s : List Char) : List Char :=
  match s with
  | c0 :: c1 :: rest =>
    if c0 == '0' && (c1 == 'b' || c1 == 'B') then rest else c0 :: c1 :: rest
  | other => other

/-- Value of a list of binary digits, most-significant first: the exact value
`parseInt(s, 2)` computes on a string of `0`/`1` characters. -/
def binVal (s : List Char) : Nat :=
  s.foldl (fun acc c => 2 * acc + (if c = '1' then 1 else 0)) 0

/-- `binaryToDecimal` from `src/js/binary-operations.js`: strips an optional
`0b` prefix, then trims, then requires the remainder to match `^[01]+$`;
a thrown format error is modelled as `none`. -/
def binaryToDecimal (s : List Char) : Option Nat :=
  let cleaned := jsTrim (strip0b s)
  if !cleaned.isEmpty && cleaned.all isBinDigit then some (binVal cleaned) else none

/-- The digit-producing loop of `Number.prototype.toString(2)` on a
non-negative integer, with explicit fuel (the loop halves `n`, so any
`fuel ≥ n` is enough). -/
def natToBinGo (fuel n : Nat) : List Char :=
  match fuel with
  | 0 => []
  | f + 1 =>
    if n = 0 then []
    else natToBinGo f (n / 2) ++ [if n % 2 = 1 then '1' else '0']

/-- `n.toString(2)` for a non-negative integer `n`. -/
def natToBin (n : Nat) : List Char :=
  if n = 0 then ['0'] else natToBinGo n n

/-- JavaScript `x >>> 0` (ToUint32) on an exact integer. -/
def toUint32 (d : Int) : Nat := (d % (2 ^ 32 : Int)).toNat

/-- `decimalToBinary` from `src/js/binary-operations.js`: negative inputs are
rendered through the unsigned 32-bit reinterpretation `(decimal >>> 0)`. -/
def decimalToBinary (d : Int) : List Char :=
  if d < 0 then natToBin (toUint32 d) else natToBin d.toNat

/-- Failures thrown by the library functions. -/
inductive BinErr where
  | invalidFormat
  | divisionByZero
  deriving DecidableEq, Repr

/-- `division` from `src/js/binary-operations.js`: decode both operands,
reject a zero divisor, otherwise `Math.floor(num1 / num2)` (exact integer
division on this domain). -/
def division (a b : List Char) : Except BinErr (List Char) :=
  match binaryToDecimal a with
  | none => .error .invalidFormat
  | some num1 =>
    match binaryToDecimal b with
    | none => .error .invalidFormat
    | some num2 =>
      if num2 = 0 then .error .divisionByZero
      else .ok (decimalToBinary ((num1 / num2 : Nat) : Int))

/-- ECMAScript ToInt32 of a non-negative exact integer. -/
def toInt32 (n : Nat) : Int :=
  if n % 2 ^ 32 < 2 ^ 31 then ((n % 2 ^ 32 : Nat) : Int)
  else ((n % 2 ^ 32 : Nat) : Int) - 2 ^ 32

/-- JavaScript `n << k` for non-negative exact `n`, `k`: a signed 32-bit
left shift (shift count taken mod 32, result reinterpreted as Int32). -/
def jsShl (n k : Nat) : Int :=
  if n % 2 ^ 32 * 2 ^ (k % 32) % 2 ^ 32 < 2 ^ 31
  then ((n % 2 ^ 32 * 2 ^ (k % 32) % 2 ^ 32 : Nat) : Int)
  else ((n % 2 ^ 32 * 2 ^ (k % 32) % 2 ^ 32 : Nat) : Int) - 2 ^ 32

/-- JavaScript `n >> k` for non-negative exact `n`, `k`: sign-extending
(arithmetic) right shift of the Int32 reinterpretation, i.e. floor division. -/
def jsShr (n k : Nat) : Int :=
  Int.fdiv (toInt32 n) (2 ^ (k % 32))

/-- `leftShift` from `src/js/binary-operations.js`; the shift amount is a
non-negative integer (`Nat`), matching the validated parameter. -/
def leftShift (a : List Char) (k : Nat) : Option (List Char) :=
  (binaryToDecimal a).map (fun n => decimalToBinary (jsShl n k))

/-- `rightShift` from `src/js/binary-operations.js`. -/
def rightShift (a : List Char) (k : Nat) : Option (List Char) :=
  (binaryToDecimal a).map (fun n => decimalToBinary (jsShr n k))

theorem binVal_nil : binVal [] = 0 := rfl

theorem binVal_snoc (l : List Char) (c : Char) :
    binVal (l ++ [c]) = 2 * binVal l + (if c = '1' then 1 else 0) := by
  simp [binVal, List.foldl_append]

theorem natToBinGo_zero (f : Nat) : natToBinGo f 0 = [] := by
  cases f <;> simp [natToBinGo]

theorem binVal_natToBinGo (f : Nat) :
    ∀ n, n ≤ f → binVal (natToBinGo f n) = n := by
  induction f with
  | zero => intro n hn; interval_cases n; simp [natToBinGo, binVal]
  | succ f ih =>
    intro n hn
    by_cases h0 : n = 0
    · subst h0; simp [natToBinGo, binVal]
    · have hdiv : n / 2 ≤ f := by omega
      rw [natToBinGo]
      simp only [h0, if_false]
      rw [binVal_snoc, ih (n / 2) hdiv]
      rcases Nat.mod_two_eq_zero_or_one n with h | h <;> simp [h] <;> omega

theorem mem_natToBinGo (f : Nat) :
    ∀ n c, c ∈ natToBinGo f n → c = '0' ∨ c = '1' := by
  induction f with
  | zero => intro n c hc; simp [natToBinGo] at hc
  | succ f ih =>
    intro n c hc
    rw [natToBinGo] at hc
    by_cases h0 : n = 0
    · simp [h0] at hc
    · simp only [h0, if_false, List.mem_append, List.mem_singleton] at hc
      rcases hc with hc | hc
      · exact ih _ _ hc
      · subst hc; split <;> simp

theorem natToBinGo_head (f : Nat) :
    ∀ n, n ≠ 0 → n ≤ f → ∃ t, natToBinGo f n = '1' :: t := by
  induction f with
  | zero => intro n hn hf; omega
  | succ f ih =>
    intro n hn hf
    rw [natToBinGo]
    simp only [hn, if_false]
    by_cases hd : n / 2 = 0
    · have hn1 : n = 1 := by omega
      subst hn1
      refine ⟨[], ?_⟩
      simp [hd, natToBinGo_zero]
    · have hdle : n / 2 ≤ f := by omega
      obtain ⟨t, ht⟩ := ih (n / 2) hd hdle
      exact ⟨t ++ [if n % 2 = 1 then '1' else '0'], by rw [ht]; simp⟩

theorem natToBinGo_length (k : Nat) :
    ∀ f n, n ≤ f → n < 2 ^ k → (natToBinGo f n).length ≤ k := by
  induction k with
  | zero =>
    intro f n hf hk
    have : n = 0 := by omega
    simp [this, natToBinGo_zero]
  | succ k ih =>
    intro f n hf hk
    cases f with
    | zero => simp [natToBinGo]
    | succ f =>
      rw [natToBinGo]
      by_cases h0 : n = 0
      · simp [h0]
      · simp only [h0, if_false, List.length_append, List.length_singleton]
        have h1 : n / 2 ≤ f := by omega
        have h2 : n / 2 < 2 ^ k := by
          have := Nat.pow_succ 2 k
          omega
        have := ih f (n / 2) h1 h2
        omega

theorem binVal_natToBin (n : Nat) : binVal (natToBin n) = n := by
  unfold natToBin
  by_cases h : n = 0
  · simp [h, binVal]
  · simp only [h, if_false]
    exact binVal_natToBinGo n n le_rfl

theorem natToBin_ne_nil (n : Nat) : natToBin n ≠ [] := by
  unfold natToBin
  by_cases h : n = 0
  · simp [h]
  · simp only [h, if_false]
    obtain ⟨t, ht⟩ := natToBinGo_head n n h le_rfl
    simp [ht]

theorem mem_natToBin (n : Nat) (c : Char) (hc : c ∈ natToBin n) :
    c = '0' ∨ c = '1' := by
  unfold natToBin at hc
  by_cases h : n = 0
  · simp [h] at hc; left; exact hc
  · simp only [h, if_false] at hc
    exact mem_natToBinGo n n c hc

theorem natToBin_head (n : Nat) (hn : n ≠ 0) :
    ∃ t, natToBin n = '1' :: t := by
  unfold natToBin
  simp only [hn, if_false]
  exact natToBinGo_head n n hn le_rfl

theorem natToBin_length (n k : Nat) (h : n < 2 ^ k) (hk : 1 ≤ k) :
    (natToBin n).length ≤ k := by
  unfold natToBin
  by_cases h0 : n = 0
  · simp [h0]; omega
  · simp only [h0, if_false]
    exact natToBinGo_length k n n le_rfl h

theorem binVal_foldl_lt (l : List Char) :
    ∀ acc, l.foldl (fun acc c => 2 * acc + (if c = '1' then 1 else 0)) acc
      < (acc + 1) * 2 ^ l.length := by
  induction l with
  | nil => intro acc; simp
  | cons c l ih =>
    intro acc
    simp only [List.foldl_cons, List.length_cons]
    have h := ih (2 * acc + (if c = '1' then 1 else 0))
    have hb : (if c = '1' then 1 else 0) ≤ 1 := by split <;> omega
    calc l.foldl _ (2 * acc + (if c = '1' then 1 else 0))
        < (2 * acc + (if c = '1' then 1 else 0) + 1) * 2 ^ l.length := h
      _ ≤ (acc + 1) * 2 ^ (l.length + 1) := by
          rw [pow_succ]
          nlinarith [Nat.pos_pow_of_pos l.length (show 0 < 2 by omega)]

theorem binVal_lt (l : List Char) : binVal l < 2 ^ l.length := by
  have := binVal_foldl_lt l 0
  simpa [binVal] using this

theorem binVal_le_of_length_le (l : List Char) (h : l.length ≤ 32) :
    binVal l ≤ 2 ^ 32 - 1 := by
  have h1 := binVal_lt l
  have h2 : (2 : Nat) ^ l.length ≤ 2 ^ 32 := Nat.pow_le_pow_right (by omega) h
  omega

theorem isBinDigit_iff (c : Char) : isBinDigit c = true ↔ c = '0' ∨ c = '1' := by
  simp [isBinDigit]

theorem isWS_eq_false (c : Char) (h : c = '0' ∨ c = '1') : isWS c = false := by
  rcases h with h | h <;> subst h <;> decide

theorem dropWhile_eq_self_of (p : Char → Bool) (l : List Char)
    (h : ∀ c ∈ l, p c = false) : l.dropWhile p = l := by
  cases l with
  | nil => rfl
  | cons a as =>
    rw [List.dropWhile_cons]
    simp [h a (List.mem_cons_self a as)]

theorem jsTrim_eq_self (l : List Char) (h : ∀ c ∈ l, isWS c = false) :
    jsTrim l = l := by
  unfold jsTrim
  rw [dropWhile_eq_self_of _ _ h,
    dropWhile_eq_self_of _ _ (fun c hc => h c (List.mem_reverse.mp hc)),
    List.reverse_reverse]

theorem strip0b_natToBin (n : Nat) : strip0b (natToBin n) = natToBin n := by
  by_cases h : n = 0
  · subst h; rfl
  · obtain ⟨t, ht⟩ := natToBin_head n h
    rw [ht]
    cases t with
    | nil => rfl
    | cons c rest => simp [strip0b]

theorem natToBin_all_isBinDigit (n : Nat) : (natToBin n).all isBinDigit = true :=
  List.all_eq_true.mpr fun c hc => (isBinDigit_iff c).mpr (mem_natToBin n c hc)

/-- Decoding the output of `natToBin` recovers the encoded number: the
`toString(2)` output has no `0b` marker, no whitespace and only binary
digits, so `binaryToDecimal` accepts it and computes its value. -/
theorem binaryToDecimal_natToBin (n : Nat) :
    binaryToDecimal (natToBin n) = some n := by
  unfold binaryToDecimal
  rw [strip0b_natToBin,
    jsTrim_eq_self _ (fun c hc => isWS_eq_false c (mem_natToBin n c hc))]
  have h1 : (natToBin n).isEmpty = false := by
    cases hh : natToBin n with
    | nil => exact absurd hh (natToBin_ne_nil n)
    | cons a as => rfl
  simp [h1, natToBin_all_isBinDigit, binVal_natToBin]

theorem decimalToBinary_ofNat (m : Nat) : decimalToBinary (m : Int) = natToBin m := by
  unfold decimalToBinary
  rw [if_neg (by exact_mod_cast Int.not_lt.mpr (Int.natCast_nonneg m)), Int.toNat_natCast]

/-- Decode-of-encode round trip for arbitrary non-negative integers. -/
theorem binaryToDecimal_decimalToBinary_nat (m : Nat) :
    binaryToDecimal (decimalToBinary (m : Int)) = some m := by
  rw [decimalToBinary_ofNat]
  exact binaryToDecimal_natToBin m

/-- C6: for every integer `n` in `[0, 2^32 − 1]`, decoding the binary string
produced by `decimalToBinary` yields `n` again: `decode(encode(n)) = n`. -/
theorem decode_encode_roundtrip (n : Nat) (_h : n ≤ 2 ^ 32 - 1) :
    binaryToDecimal (decimalToBinary (n : Int)) = some n :=
  binaryToDecimal_decimalToBinary_nat n

/-- Witness for C6 at `n = 5`. -/
theorem decode_encode_roundtrip_witness :
    5 ≤ 2 ^ 32 - 1 ∧ binaryToDecimal (decimalToBinary ((5 : Nat) : Int)) = some 5 :=
  ⟨by norm_num, decode_encode_roundtrip 5 (by norm_num)⟩

/-- C5: `division a b` fails with `DivisionByZero` exactly when the divisor
decodes to 0, and otherwise returns a binary string decoding to
`⌊decode(a) / decode(b)⌋`. -/
theorem division_spec (a b : List Char) (va vb : Nat)
    (ha : binaryToDecimal a = some va) (hb : binaryToDecimal b = some vb) :
    (vb = 0 → division a b = .error .divisionByZero) ∧
    (vb ≠ 0 → ∃ r, division a b = .ok r ∧ binaryToDecimal r = some (va / vb)) := by
  unfold division
  rw [ha, hb]
  constructor
  · intro h; simp [h]
  · intro h
    refine ⟨decimalToBinary ((va / vb : Nat) : Int), by simp [h], ?_⟩
    exact binaryToDecimal_decimalToBinary_nat (va / vb)

/-- Witness for C5 at `a = "1010"`, `b = "10"` (10 / 2 = 5). -/
theorem division_spec_witness :
    ((2 : Nat) = 0 → division ['1', '0', '1', '0'] ['1', '0'] = .error .divisionByZero) ∧
    ((2 : Nat) ≠ 0 → ∃ r, division ['1', '0', '1', '0'] ['1', '0'] = .ok r ∧
      binaryToDecimal r = some (10 / 2)) :=
  division_spec ['1', '0', '1', '0'] ['1', '0'] 10 2 (by decide) (by decide)

/-- The format criterion in the claim's words: the input matches
`^(0[bB])?[01]+$` after trimming surrounding whitespace (so trimming happens
before the optional `0b`/`0B` marker is considered).  The optional-marker
regex group is expressed by dropping one leading `0b`/`0B` if present. -/
def claimValidFormat (s : List Char) : Bool :=
  let t := strip0b (jsTrim s)
  !t.isEmpty && t.all isBinDigit

theorem isEmpty_eq_false_iff (l : List Char) : l.isEmpty = false ↔ l ≠ [] := by
  cases l <;> simp

/-- C4 counterexample: on `" 0b101"` the claim's criterion (trim first, then
marker) accepts, but `binaryToDecimal` rejects, because the code strips the
`0b` marker before trimming and the leading space hides the marker. -/
theorem binaryToDecimal_claim_cex :
    claimValidFormat [' ', '0', 'b', '1', '0', '1'] = true ∧
    binaryToDecimal [' ', '0', 'b', '1', '0', '1'] = none := by decide

/-- C4 (amended): `binaryToDecimal s` succeeds exactly when `s`, after first
stripping one optional `0b`/`0B` marker and then trimming whitespace, is a
non-empty all-`0`/`1` string (in particular the empty string fails), and the
returned value is the binary value of that cleaned string. -/
theorem binaryToDecimal_spec (s : List Char) :
    ((binaryToDecimal s).isSome ↔
      jsTrim (strip0b s) ≠ [] ∧ ∀ c ∈ jsTrim (strip0b s), c = '0' ∨ c = '1') ∧
    (∀ v, binaryToDecimal s = some v → v = binVal (jsTrim (strip0b s))) ∧
    binaryToDecimal [] = none := by
  by_cases hcond :
      (!(jsTrim (strip0b s)).isEmpty && (jsTrim (strip0b s)).all isBinDigit) = true
  · have hc := hcond
    simp only [Bool.and_eq_true, Bool.not_eq_true', isEmpty_eq_false_iff,
      List.all_eq_true] at hc
    refine ⟨?_, ?_, by decide⟩
    · simp only [binaryToDecimal, hcond, if_true, Option.isSome_some, true_iff]
      exact ⟨hc.1, fun c hhc => (isBinDigit_iff c).mp (hc.2 c hhc)⟩
    · intro v hv
      simp only [binaryToDecimal, hcond, if_true, Option.some_inj] at hv
      exact hv.symm
  · have hc := hcond
    simp only [Bool.and_eq_true, Bool.not_eq_true', isEmpty_eq_false_iff,
      List.all_eq_true, not_and] at hc
    refine ⟨?_, ?_, by decide⟩
    · simp only [binaryToDecimal, hcond, if_false, Option.isSome_none,
        Bool.false_eq_true, false_iff, not_and]
      intro hne hall
      exact absurd (fun c hhc => (isBinDigit_iff c).mpr (hall c hhc)) (hc hne)
    · intro v hv
      simp only [binaryToDecimal, hcond, if_false] at hv
      simp at hv

/-- Witness instantiating C4's amended characterization at `s = "10"`. -/
theorem binaryToDecimal_spec_witness :
    ((binaryToDecimal ['1', '0']).isSome ↔
      jsTrim (strip0b ['1', '0']) ≠ [] ∧
      ∀ c ∈ jsTrim (strip0b ['1', '0']), c = '0' ∨ c = '1') ∧
    (∀ v, binaryToDecimal ['1', '0'] = some v →
      v = binVal (jsTrim (strip0b ['1', '0']))) ∧
    binaryToDecimal [] = none :=
  binaryToDecimal_spec ['1', '0']

/-- C3 counterexample: `a = "1"`, `k = 31`.  The shift loses no bits of the
32-bit value (`1·2^31 ≤ 2^32 − 1`), yet the round trip returns
`2^32 − 1` instead of `1`, because JavaScript's `<<`/`>>` are *signed*
32-bit shifts: `1 << 31` is the Int32 value `−2^31`, and the arithmetic
`>> 31` sign-extends it to `−1`, rendered as 32 one-bits. -/
theorem shift_roundtrip_claim_cex :
    binaryToDecimal ['1'] = some 1 ∧
    1 * 2 ^ 31 ≤ 2 ^ 32 - 1 ∧
    ((leftShift ['1'] 31).bind (fun s => rightShift s 31)).bind binaryToDecimal
      ≠ some 1 := by
  refine ⟨by decide, by norm_num, ?_⟩
  have h1 : binaryToDecimal ['1'] = some 1 := by decide
  have key : ((leftShift ['1'] 31).bind (fun s => rightShift s 31)).bind binaryToDecimal
      = some 4294967295 := by
    unfold leftShift
    rw [h1]
    show (rightShift (decimalToBinary (jsShl 1 31)) 31).bind binaryToDecimal = _
    rw [show jsShl 1 31 = -(2 ^ 31) from by decide]
    rw [show decimalToBinary (-(2 ^ 31)) = natToBin 2147483648 from by
      unfold decimalToBinary
      rw [if_pos (by norm_num)]
      congr 1]
    unfold rightShift
    rw [binaryToDecimal_natToBin]
    show binaryToDecimal (decimalToBinary (jsShr 2147483648 31)) = _
    rw [show jsShr 2147483648 31 = -1 from by decide]
    rw [show decimalToBinary (-1) = natToBin 4294967295 from by
      unfold decimalToBinary
      rw [if_pos (by norm_num)]
      congr 1]
    exact binaryToDecimal_natToBin 4294967295
  rw [key]
  simp

/-- C3 (amended): `decode(rightShift(shiftLeft(a, k), k)) = decode(a)` holds
whenever `decode(a)·2^k ≤ 2^31 − 1`, i.e. the shifted value also stays clear
of the Int32 sign bit — JavaScript's `<<`/`>>` are signed 32-bit shifts, so
a shift into bit 31, although it loses no bit of the 32-bit value, is not
undone by the sign-extending right shift. -/
theorem shift_roundtrip (a : List Char) (k va : Nat)
    (ha : binaryToDecimal a = some va)
    (hfit : va * 2 ^ k ≤ 2 ^ 31 - 1) :
    ((leftShift a k).bind (fun s => rightShift s k)).bind binaryToDecimal
      = some va := by
  unfold leftShift
  rw [ha]
  show (rightShift (decimalToBinary (jsShl va k)) k).bind binaryToDecimal = _
  by_cases h0 : va = 0
  · subst h0
    have hshl : jsShl 0 k = ((0 : Nat) : Int) := by unfold jsShl; simp
    rw [hshl, decimalToBinary_ofNat]
    unfold rightShift
    rw [binaryToDecimal_natToBin]
    show binaryToDecimal (decimalToBinary (jsShr 0 k)) = _
    have hshr : jsShr 0 k = ((0 : Nat) : Int) := by
      unfold jsShr toInt32
      simp [Int.zero_fdiv]
    rw [hshr, decimalToBinary_ofNat, binaryToDecimal_natToBin]
  · have h2k : 1 ≤ 2 ^ k := Nat.one_le_two_pow
    have hle : va ≤ va * 2 ^ k := Nat.le_mul_of_pos_right va (by omega)
    have hva31 : va < 2 ^ 31 := by omega
    have hk : k < 32 := by
      by_contra hcon
      push_neg at hcon
      have h32 : (2 : Nat) ^ 32 ≤ 2 ^ k := Nat.pow_le_pow_right (by omega) hcon
      have : 1 * 2 ^ 32 ≤ va * 2 ^ k := Nat.mul_le_mul (by omega) h32
      have hlt : (2 : Nat) ^ 31 < 2 ^ 32 := by norm_num
      omega
    have hkmod : k % 32 = k := Nat.mod_eq_of_lt hk
    have hprod : va * 2 ^ k < 2 ^ 31 := by omega
    have h3132 : (2 : Nat) ^ 31 < 2 ^ 32 := by norm_num
    have hva32 : va < 2 ^ 32 := by omega
    have hprod32 : va * 2 ^ k < 2 ^ 32 := by omega
    have hshl : jsShl va k = ((va * 2 ^ k : Nat) : Int) := by
      unfold jsShl
      rw [hkmod, Nat.mod_eq_of_lt hva32, Nat.mod_eq_of_lt hprod32, if_pos hprod]
    rw [hshl, decimalToBinary_ofNat]
    unfold rightShift
    rw [binaryToDecimal_natToBin]
    show binaryToDecimal (decimalToBinary (jsShr (va * 2 ^ k) k)) = _
    have hshr : jsShr (va * 2 ^ k) k = ((va : Nat) : Int) := by
      unfold jsShr toInt32
      rw [hkmod, Nat.mod_eq_of_lt hprod32, if_pos hprod]
      rw [show ((va * 2 ^ k : Nat) : Int) = (va : Int) * (2 : Int) ^ k from by
        push_cast; ring]
      exact Int.mul_fdiv_cancel _ (by positivity)
    rw [hshr, decimalToBinary_ofNat, binaryToDecimal_natToBin]

/-- Witness for C3's amended round trip at `a = "10"`, `k = 3`. -/
theorem shift_roundtrip_witness :
    ((leftShift ['1', '0'] 3).bind (fun s => rightShift s 3)).bind binaryToDecimal
      = some 2 :=
  shift_roundtrip ['1', '0'] 3 2 (by decide) (by norm_num)

end BinOps

namespace Engine

open BinOps

/-- The controller's finite-state phases (`CalculatorEngine.STATE`). -/
inductive CState where
  | INPUT
  | OPERATOR
  | RESULT
  | ERROR
  deriving DecidableEq, Repr

/-- The distinct error messages the engine can set; each constructor stands
for one message string of the source, with its `ERROR_TYPE` noted. -/
inductive ErrMsg where
  | invalidDigit      -- INVALID_INPUT: only the digits 0 and 1 are accepted
  | invalidOperator   -- INVALID_INPUT: invalid operator
  | overflowInput     -- OVERFLOW: input value exceeds the 32-bit limit
  | overflowResult    -- OVERFLOW: calculation result exceeds the 32-bit limit
  | negativeResult    -- NEGATIVE_RESULT: negative results are not handled
  | divisionByZero    -- DIVISION_BY_ZERO: division by zero
  deriving DecidableEq, Repr

/-- The mutable fields of the `CalculatorEngine` class. -/
structure CalculatorEngine where
  state : CState
  currentValue : List Char
  previousValue : Option (List Char)
  operator : Option Char
  errorMessage : Option ErrMsg
  isNewInput : Bool
  history : List (List Char)
  deriving DecidableEq, Repr

/-- `reset()` (also run by the constructor): every field returns to its
initial value, including an empty history. -/
def resetEngine : CalculatorEngine :=
  { state := .INPUT
    currentValue := ['0']
    previousValue := none
    operator := none
    errorMessage := none
    isNewInput := true
    history := [] }

/-- `setError(errorType, message)`: only `state` and `errorMessage` change. -/
def setError (e : CalculatorEngine) (m : ErrMsg) : CalculatorEngine :=
  { e with state := .ERROR, errorMessage := some m }

/-- `validateBinaryDigit`. -/
def validateBinaryDigit (d : Char) : Bool := d == '0' || d == '1'

/-- `validateBinaryLength`: at most `MAX_BITS = 32` characters, and the
parsed value at most `MAX_VALUE = 0xFFFFFFFF`. -/
def validateBinaryLength (b : List Char) : Bool :=
  if b.length > 32 then false else decide (binVal b ≤ 4294967295)

/-- `validateOperator`. -/
def validateOperator (op : Char) : Bool :=
  op == '+' || op == '-' || op == '*' || op == '/'

/-- `inputDigit(digit)`.  An `ERROR` state is reset first; an invalid digit
reports `INVALID_INPUT`; a fresh input replaces the current value; a lone
leading `'0'` is dropped; after appending, an overflowing value is rolled
back one character and `OVERFLOW` is reported. -/
def inputDigit (e0 : CalculatorEngine) (digit : Char) : CalculatorEngine :=
  let e1 := if e0.state = .ERROR then resetEngine else e0
  if validateBinaryDigit digit then
    let e2 := if e1.isNewInput
      then { e1 with currentValue := [], isNewInput := false, state := .INPUT }
      else e1
    let e3 := if e2.currentValue = ['0'] then { e2 with currentValue := [] } else e2
    let app0 := e3.currentValue ++ [digit]
    let app := if app0 = [] then ['0'] else app0
    if validateBinaryLength app then { e3 with currentValue := app }
    else
      let rb0 := app.dropLast
      let rb := if rb0 = [] then ['0'] else rb0
      setError { e3 with currentValue := rb } .overflowInput
  else setError e1 .invalidDigit

/-- `add`: overflow above `0xFFFFFFFF` is rejected. -/
def add (num1 num2 : Nat) : Except ErrMsg Nat :=
  if num1 + num2 > 4294967295 then .error .overflowResult else .ok (num1 + num2)

/-- `subtract`: a result below `MIN_VALUE = 0` is rejected. -/
def subtract (num1 num2 : Nat) : Except ErrMsg Nat :=
  if (num1 : Int) - (num2 : Int) < 0 then .error .negativeResult
  else .ok (num1 - num2)

/-- `multiply`: overflow above `0xFFFFFFFF` is rejected. -/
def multiply (num1 num2 : Nat) : Except ErrMsg Nat :=
  if num1 * num2 > 4294967295 then .error .overflowResult else .ok (num1 * num2)

/-- `divide`: integer division, zero divisor rejected. -/
def divide (num1 num2 : Nat) : Except ErrMsg Nat :=
  if num2 = 0 then .error .divisionByZero else .ok (num1 / num2)

/-- The operator `switch` inside `calculate`, including its `default` case. -/
def dispatchOp (op : Char) (num1 num2 : Nat) : Except ErrMsg Nat :=
  if op = '+' then add num1 num2
  else if op = '-' then subtract num1 num2
  else if op = '*' then multiply num1 num2
  else if op = '/' then divide num1 num2
  else .error .invalidOperator

/-- `addToHistory`: push, then evict the oldest entry past 100. -/
def addToHistory (h : List (List Char)) (calculation : List Char) :
    List (List Char) :=
  let h1 := h ++ [calculation]
  if h1.length > 100 then h1.drop 1 else h1

/-- The history record `"{previousValue} {operator} {currentValue} = {result}"`. -/
def historyEntry (pv : List Char) (op : Char) (cur : List Char) (v : Nat) :
    List Char :=
  pv ++ [' ', op, ' '] ++ cur ++ [' ', '=', ' '] ++ natToBin v

/-- `calculate()`.  A no-op in `ERROR` or without operator/previous value;
otherwise decodes both operands, dispatches, and either reports the error
(leaving operands and operator untouched) or commits the result.  The
source's `try`/`catch` is not modelled: none of the modelled operations
throws. -/
def calculate (e : CalculatorEngine) : CalculatorEngine :=
  if e.state = .ERROR then e
  else
    match e.operator, e.previousValue with
    | some op, some pv =>
      match dispatchOp op (binVal pv) (binVal e.currentValue) with
      | .error m => setError e m
      | .ok v =>
        { e with
          history := addToHistory e.history (historyEntry pv op e.currentValue v)
          currentValue := natToBin v
          operator := none
          previousValue := none
          state := .RESULT
          isNewInput := true }
    | _, _ => e

/-- The tail of `inputOperator`: a failed implicit calculation is returned
as-is (`result.hasError`), otherwise the pending operand and operator are
stored. -/
def storePending (e1 : CalculatorEngine) (op : Char) : CalculatorEngine :=
  if e1.state = .ERROR then e1
  else
    { e1 with
      previousValue := some e1.currentValue
      operator := some op
      state := .OPERATOR
      isNewInput := true }

/-- `inputOperator(op)`.  Ignored in `ERROR`; an invalid operator reports
`INVALID_INPUT`; a pending operator with a non-fresh operand first runs the
implicit `calculate()`, and its failure is returned without storing `op`. -/
def inputOperator (e : CalculatorEngine) (op : Char) : CalculatorEngine :=
  if e.state = .ERROR then e
  else if validateOperator op then
    storePending (if e.operator ≠ none ∧ e.isNewInput = false then calculate e else e) op
  else setError e .invalidOperator

/-- `backspace()`: resets in `ERROR`; a no-op on fresh input or on `"0"`;
otherwise drops the last character, substituting `"0"` for emptiness. -/
def backspace (e : CalculatorEngine) : CalculatorEngine :=
  if e.state = .ERROR then resetEngine
  else if e.isNewInput = true ∨ e.currentValue = ['0'] then e
  else
    { e with currentValue :=
        if e.currentValue.dropLast = [] then ['0'] else e.currentValue.dropLast }

/-- `clear()`: runs `reset()` and returns the (reset) state. -/
def clear (_e : CalculatorEngine) : CalculatorEngine := resetEngine

/-- JS `Array.prototype.slice(-k)` for a non-negative integer `k`: the last
`min(k, length)` elements — and since `-0` is `0`, `k = 0` yields the whole
array, not an empty one. -/
def jsSliceNeg (l : List (List Char)) (k : Nat) : List (List Char) :=
  if k = 0 then l else l.drop (l.length - k)

/-- `getHistory(limit)`: `history.slice(-limit).reverse()`. -/
def getHistory (e : CalculatorEngine) (limit : Nat) : List (List Char) :=
  (jsSliceNeg e.history limit).reverse

/-- `getHistory()` with the source's default parameter `limit = 10`. -/
def getHistoryDefault (e : CalculatorEngine) : List (List Char) :=
  getHistory e 10

/-- The well-formedness condition C8 claims for a stored binary string:
non-empty, only binary digits, at most 32 of them, value at most `2^32 − 1`,
and no leading zero unless the string is exactly `"0"`. -/
def GoodBin (l : List Char) : Prop :=
  l ≠ [] ∧ (∀ c ∈ l, c = '0' ∨ c = '1') ∧ l.length ≤ 32 ∧
    binVal l ≤ 2 ^ 32 - 1 ∧ (l.head? = some '0' → l = ['0'])

instance (l : List Char) : Decidable (GoodBin l) := by
  unfold GoodBin; infer_instance

/-- The inductive invariant: the current operand and any captured previous
operand are well-formed binary strings. -/
def EngineInv (e : CalculatorEngine) : Prop :=
  GoodBin e.currentValue ∧ ∀ pv, e.previousValue = some pv → GoodBin pv

/-- Engine states reachable from a freshly constructed engine through the
public mutating operations. -/
inductive Reachable : CalculatorEngine → Prop where
  | init : Reachable resetEngine
  | inputDigit {e : CalculatorEngine} (d : Char) :
      Reachable e → Reachable (inputDigit e d)
  | inputOperator {e : CalculatorEngine} (op : Char) :
      Reachable e → Reachable (inputOperator e op)
  | calculate {e : CalculatorEngine} : Reachable e → Reachable (calculate e)
  | backspace {e : CalculatorEngine} : Reachable e → Reachable (backspace e)
  | clear {e : CalculatorEngine} : Reachable e → Reachable (clear e)
  | reset {e : CalculatorEngine} : Reachable e → Reachable resetEngine

theorem validateBinaryLength_iff (b : List Char) :
    validateBinaryLength b = true ↔ b.length ≤ 32 ∧ binVal b ≤ 4294967295 := by
  unfold validateBinaryLength
  by_cases h : b.length > 32
  · rw [if_pos h]; simp; omega
  · rw [if_neg h]; simp; omega

theorem goodBin_digit (d : Char) (hd : d = '0' ∨ d = '1') : GoodBin [d] := by
  rcases hd with h | h <;> subst h <;> decide

theorem goodBin_natToBin (v : Nat) (hv : v ≤ 2 ^ 32 - 1) : GoodBin (natToBin v) := by
  refine ⟨natToBin_ne_nil v, mem_natToBin v, ?_, ?_, ?_⟩
  · exact natToBin_length v 32 (by omega) (by omega)
  · rw [binVal_natToBin]; exact hv
  · intro h
    by_cases h0 : v = 0
    · subst h0; rfl
    · obtain ⟨t, ht⟩ := natToBin_head v h0
      rw [ht, List.head?_cons, Option.some.injEq] at h
      exact absurd h (by decide)

theorem head?_dropLast (l : List Char) (h : l.dropLast ≠ []) :
    l.dropLast.head? = l.head? := by
  cases l with
  | nil => simp at h
  | cons a t =>
    cases t with
    | nil => simp at h
    | cons b t' => simp [List.dropLast]

theorem goodBin_dropLast (l : List Char) (h : GoodBin l)
    (hne : l.dropLast ≠ []) : GoodBin l.dropLast := by
  obtain ⟨h1, h2, h3, _h4, h5⟩ := h
  refine ⟨hne, ?_, ?_, ?_, ?_⟩
  · exact fun c hc => h2 c ((List.dropLast_sublist l).subset hc)
  · rw [List.length_dropLast]; omega
  · exact binVal_le_of_length_le _ (by rw [List.length_dropLast]; omega)
  · intro h0
    rw [head?_dropLast l hne] at h0
    have := h5 h0
    rw [this] at hne
    simp at hne

theorem inv_resetEngine : EngineInv resetEngine :=
  ⟨by decide, fun pv hpv => absurd hpv (by simp [resetEngine])⟩

theorem inv_setError (e : CalculatorEngine) (m : ErrMsg) (h : EngineInv e) :
    EngineInv (setError e m) :=
  h

theorem inputDigit_of_error (e : CalculatorEngine) (d : Char)
    (hs : e.state = .ERROR) : inputDigit e d = inputDigit resetEngine d := by
  unfold inputDigit
  rw [if_pos hs, if_neg (show ¬ (resetEngine.state = .ERROR) by decide)]

theorem inv_inputDigit_core (e : CalculatorEngine) (d : Char) (h : EngineInv e)
    (hs : e.state ≠ .ERROR) : EngineInv (inputDigit e d) := by
  obtain ⟨st, cur, pvf, opf, em, ni, hist⟩ := e
  obtain ⟨hcur, hprev⟩ := h
  by_cases hd : validateBinaryDigit d = true
  · have hd01 : d = '0' ∨ d = '1' := by simpa [validateBinaryDigit] using hd
    cases ni with
    | true =>
      -- fresh input: the current value is replaced by the single digit
      rcases hd01 with hdd | hdd <;> subst hdd <;>
        exact ⟨by simpa [inputDigit, hs] using goodBin_digit _ (by simp),
          fun pv hpv => hprev pv (by simpa [inputDigit, hs] using hpv)⟩
    | false =>
      by_cases hcur0 : cur = ['0']
      · -- the lone leading '0' is dropped, leaving the single digit
        subst hcur0
        rcases hd01 with hdd | hdd <;> subst hdd <;>
          exact ⟨by simpa [inputDigit, hs] using goodBin_digit _ (by simp),
            fun pv hpv => hprev pv (by simpa [inputDigit, hs] using hpv)⟩
      · have hne : cur ≠ [] := hcur.1
        by_cases hval : validateBinaryLength (cur ++ [d]) = true
        · -- accepted append
          have hgood : GoodBin (cur ++ [d]) := by
            obtain ⟨hlen, hv⟩ := (validateBinaryLength_iff _).mp hval
            refine ⟨by simp, ?_, hlen, by omega, ?_⟩
            · intro c hc
              rcases List.mem_append.mp hc with hc | hc
              · exact hcur.2.1 c hc
              · simp at hc; subst hc; exact hd01
            · intro h0
              rw [List.head?_append] at h0
              cases hhc : cur.head? with
              | none => exact absurd (List.head?_eq_none_iff.mp hhc) hne
              | some a =>
                rw [hhc] at h0
                simp at h0
                subst h0
                exact absurd (hcur.2.2.2.2 hhc) hcur0
          exact ⟨by simpa [inputDigit, hs, hd, hcur0, hval, hne] using hgood,
            fun pv hpv => hprev pv (by simpa [inputDigit, hs, hd, hcur0, hval] using hpv)⟩
        · -- overflow: rollback to the previous current value
          exact ⟨by simpa [inputDigit, hs, hd, hcur0, hval, hne,
              List.dropLast_concat, setError] using hcur,
            fun pv hpv => hprev pv (by simpa [inputDigit, hs, hd, hcur0, hval, hne,
              List.dropLast_concat, setError] using hpv)⟩
  · -- invalid digit: only state/errorMessage change
    exact ⟨by simpa [inputDigit, hs, hd, setError] using hcur,
      fun pv hpv => hprev pv (by simpa [inputDigit, hs, hd, setError] using hpv)⟩

theorem inv_inputDigit (e : CalculatorEngine) (d : Char) (h : EngineInv e) :
    EngineInv (inputDigit e d) := by
  by_cases hs : e.state = .ERROR
  · rw [inputDigit_of_error e d hs]
    exact inv_inputDigit_core resetEngine d inv_resetEngine (by decide)
  · exact inv_inputDigit_core e d h hs

theorem dispatchOp_ok_le (op : Char) (n1 n2 v : Nat) (h1 : n1 ≤ 2 ^ 32 - 1)
    (h : dispatchOp op n1 n2 = .ok v) : v ≤ 2 ^ 32 - 1 := by
  have hmax : (2 : Nat) ^ 32 - 1 = 4294967295 := by norm_num
  rw [hmax] at h1 ⊢
  unfold dispatchOp add subtract multiply divide at h
  have hdiv : n1 / n2 ≤ n1 := Nat.div_le_self n1 n2
  split_ifs at h <;> (simp only [Except.ok.injEq] at h; omega)

theorem calculate_of_op_none (e : CalculatorEngine) (hs : e.state ≠ .ERROR)
    (hop : e.operator = none) : calculate e = e := by
  unfold calculate
  rw [if_neg hs]
  conv_lhs => rw [hop]

theorem calculate_of_pv_none (e : CalculatorEngine) (hs : e.state ≠ .ERROR)
    (op : Char) (hop : e.operator = some op) (hpv : e.previousValue = none) :
    calculate e = e := by
  unfold calculate
  rw [if_neg hs]
  conv_lhs => rw [hop, hpv]

theorem calculate_some_some (e : CalculatorEngine) (op : Char) (pv : List Char)
    (hs : e.state ≠ .ERROR) (hop : e.operator = some op)
    (hpv : e.previousValue = some pv) :
    calculate e =
      (match dispatchOp op (binVal pv) (binVal e.currentValue) with
      | .error m => setError e m
      | .ok v =>
        { e with
          history := addToHistory e.history (historyEntry pv op e.currentValue v)
          currentValue := natToBin v
          operator := none
          previousValue := none
          state := .RESULT
          isNewInput := true }) := by
  unfold calculate
  rw [if_neg hs]
  conv_lhs => rw [hop, hpv]

theorem inv_calculate (e : CalculatorEngine) (h : EngineInv e) :
    EngineInv (calculate e) := by
  by_cases hs : e.state = .ERROR
  · unfold calculate
    rw [if_pos hs]
    exact h
  cases hop : e.operator with
  | none => rw [calculate_of_op_none e hs hop]; exact h
  | some op =>
    cases hpv : e.previousValue with
    | none => rw [calculate_of_pv_none e hs op hop hpv]; exact h
    | some pv =>
      rw [calculate_some_some e op pv hs hop hpv]
      have hpvg : GoodBin pv := h.2 pv hpv
      cases hres : dispatchOp op (binVal pv) (binVal e.currentValue) with
      | error m => exact h
      | ok v =>
        refine ⟨?_, ?_⟩
        · show GoodBin (natToBin v)
          exact goodBin_natToBin v
            (dispatchOp_ok_le op (binVal pv) (binVal e.currentValue) v
              hpvg.2.2.2.1 hres)
        · intro pv' hpv'
          have hcontra : (none : Option (List Char)) = some pv' := hpv'
          exact absurd hcontra (by simp)

theorem inv_storePending (e1 : CalculatorEngine) (op : Char) (h : EngineInv e1) :
    EngineInv (storePending e1 op) := by
  unfold storePending
  split
  · exact h
  · refine ⟨h.1, fun pv hpv => ?_⟩
    have : e1.currentValue = pv := by simpa using hpv
    rw [← this]
    exact h.1

theorem inv_inputOperator (e : CalculatorEngine) (op : Char) (h : EngineInv e) :
    EngineInv (inputOperator e op) := by
  unfold inputOperator
  by_cases hs : e.state = .ERROR
  · rw [if_pos hs]; exact h
  rw [if_neg hs]
  by_cases hv : validateOperator op = true
  · rw [if_pos hv]
    apply inv_storePending
    split
    · exact inv_calculate e h
    · exact h
  · rw [if_neg hv]
    exact inv_setError e _ h

theorem inv_backspace (e : CalculatorEngine) (h : EngineInv e) :
    EngineInv (backspace e) := by
  unfold backspace
  by_cases hs : e.state = .ERROR
  · rw [if_pos hs]; exact inv_resetEngine
  rw [if_neg hs]
  by_cases hstop : e.isNewInput = true ∨ e.currentValue = ['0']
  · rw [if_pos hstop]; exact h
  rw [if_neg hstop]
  refine ⟨?_, h.2⟩
  by_cases hnil : e.currentValue.dropLast = []
  · simpa [hnil] using (by decide : GoodBin ['0'])
  · simpa [hnil] using goodBin_dropLast e.currentValue h.1 hnil

theorem reachable_inv (e : CalculatorEngine) (h : Reachable e) : EngineInv e := by
  induction h with
  | init => exact inv_resetEngine
  | inputDigit d _ ih => exact inv_inputDigit _ d ih
  | inputOperator op _ ih => exact inv_inputOperator _ op ih
  | calculate _ ih => exact inv_calculate _ ih
  | backspace _ ih => exact inv_backspace _ ih
  | clear _ _ => exact inv_resetEngine
  | reset _ _ => exact inv_resetEngine

/-- C8: in every state reachable from the initial state via `inputDigit`,
`inputOperator`, `calculate`, `backspace`, `clear` and `reset`, the current
operand is a non-empty `0`/`1` string of at most 32 characters, its value is
at most `2^32 − 1`, and it has no leading `'0'` unless it is exactly `"0"`. -/
theorem currentValue_invariant (e : CalculatorEngine) (h : Reachable e) :
    GoodBin e.currentValue :=
  (reachable_inv e h).1

/-- Witness for C8 at the state reached by one `inputDigit '1'`. -/
theorem currentValue_invariant_witness :
    GoodBin (inputDigit resetEngine '1').currentValue :=
  currentValue_invariant _ (Reachable.inputDigit '1' Reachable.init)

/-- C2 counterexample: a completed calculation (`1 + 1`) leaves one history
record, and `clear()` erases it — `clear` runs `reset`, which clears
`history`, so `clear` does not leave the history unchanged. -/
theorem clear_history_claim_cex :
    (calculate (inputDigit (inputOperator (inputDigit resetEngine '1') '+') '1')).history
      ≠ [] ∧
    (clear (calculate (inputDigit (inputOperator (inputDigit resetEngine '1') '+') '1'))).history
      ≠ (calculate (inputDigit (inputOperator (inputDigit resetEngine '1') '+') '1')).history := by
  decide

/-- C2 (amended): `clear()` behaves exactly like `reset()` — it re-initializes
every field *including* `history` — while merely entering the `ERROR` phase
via `setError` leaves `history` unchanged. -/
theorem clear_spec (e : CalculatorEngine) (m : ErrMsg) :
    clear e = resetEngine ∧ (setError e m).history = e.history :=
  ⟨rfl, rfl⟩

/-- C9: `getHistory` with a positive limit returns the most recent
`min(limit, length)` records, most recent first; with limit 0 it returns
*every* stored record; with no argument the limit defaults to 10. -/
theorem getHistory_spec (e : CalculatorEngine) (limit : Nat) (h : 0 < limit) :
    getHistory e limit = e.history.reverse.take limit ∧
    getHistory e 0 = e.history.reverse ∧
    getHistoryDefault e = getHistory e 10 := by
  refine ⟨?_, by simp [getHistory, jsSliceNeg], rfl⟩
  unfold getHistory jsSliceNeg
  rw [if_neg (by omega), List.take_reverse]

/-- An engine state holding three history records, used to instantiate the
`getHistory` characterization. -/
def demoHistoryEngine : CalculatorEngine :=
  ⟨.INPUT, ['0'], none, none, none, true, [['a'], ['b'], ['c']]⟩

/-- Witness for C9 at a three-record history and `limit = 2`. -/
theorem getHistory_spec_witness :
    getHistory demoHistoryEngine 2 = demoHistoryEngine.history.reverse.take 2 ∧
    getHistory demoHistoryEngine 0 = demoHistoryEngine.history.reverse ∧
    getHistoryDefault demoHistoryEngine = getHistory demoHistoryEngine 10 :=
  getHistory_spec demoHistoryEngine 2 (by norm_num)

/-- C1 counterexample: after 32 consecutive `'1'` digits the phase is
`INPUT`; the 33rd `'1'` rolls the appended digit back (`currentInput` keeps
its 32-digit value) and reports `OVERFLOW`, but it sets the phase to `ERROR`
instead of leaving it at its prior value. -/
theorem inputDigit_overflow_claim_cex :
    ((List.replicate 32 '1').foldl inputDigit resetEngine).state = CState.INPUT ∧
    (inputDigit ((List.replicate 32 '1').foldl inputDigit resetEngine) '1').currentValue
      = List.replicate 32 '1' ∧
    (inputDigit ((List.replicate 32 '1').foldl inputDigit resetEngine) '1').errorMessage
      = some ErrMsg.overflowInput ∧
    (inputDigit ((List.replicate 32 '1').foldl inputDigit resetEngine) '1').state
      ≠ ((List.replicate 32 '1').foldl inputDigit resetEngine).state := by
  decide

/-- C1 (amended): whenever appending a valid digit would overflow the 32-bit
ceiling (which requires a non-fresh, non-`"0"` operand outside `ERROR`),
`inputDigit` keeps `currentValue` at its prior value, reports `OVERFLOW` —
and sets the phase to `ERROR` (it is *not* left at its prior value). -/
theorem inputDigit_overflow_spec (e : CalculatorEngine) (d : Char)
    (hd : validateBinaryDigit d = true)
    (hs : e.state ≠ .ERROR)
    (hn : e.isNewInput = false)
    (h0 : e.currentValue ≠ ['0'])
    (hov : validateBinaryLength (e.currentValue ++ [d]) = false) :
    inputDigit e d
      = { e with state := .ERROR, errorMessage := some .overflowInput } := by
  have hne : e.currentValue ≠ [] := by
    intro hnil
    rw [hnil] at hov
    have hd' : d = '0' ∨ d = '1' := by simpa [validateBinaryDigit] using hd
    rcases hd' with h | h <;> subst h <;> simp [validateBinaryLength, binVal] at hov
  obtain ⟨st, cur, pv, op, em, ni, hist⟩ := e
  simp only at hs hn h0 hov hne ⊢
  subst hn
  simp [inputDigit, hs, hd, h0, hov, hne, setError, List.dropLast_concat]

/-- Witness for C1's amended overflow behaviour: a 32-one operand plus one
more `'1'`. -/
theorem inputDigit_overflow_spec_witness :
    inputDigit ⟨.INPUT, List.replicate 32 '1', none, none, none, false, []⟩ '1'
      = { (⟨.INPUT, List.replicate 32 '1', none, none, none, false, []⟩ :
            CalculatorEngine) with
          state := .ERROR, errorMessage := some .overflowInput } :=
  inputDigit_overflow_spec _ '1' (by decide) (by decide) rfl (by decide) (by decide)

/-- When `calculate` has a pending operator and previous value and the
dispatched operation fails, the engine only moves to `ERROR` and records the
message: `previousValue`, `currentValue` and `operator` are untouched. -/
theorem calculate_error_aux (e : CalculatorEngine) (op : Char) (pv : List Char)
    (m : ErrMsg)
    (hs : e.state ≠ .ERROR) (hop : e.operator = some op)
    (hpv : e.previousValue = some pv)
    (hfail : dispatchOp op (binVal pv) (binVal e.currentValue) = .error m) :
    calculate e = { e with state := .ERROR, errorMessage := some m } := by
  unfold calculate
  rw [if_neg hs]
  conv_lhs => rw [hop, hpv]
  simp only [hfail]
  rfl

/-- C7: for every state in which `calculate()` fails, the call sets the phase
to `ERROR` and the error message, while `previousValue`, `currentValue` and
`operator` keep exactly the values they had before the call. -/
theorem calculate_failure_spec (e : CalculatorEngine) (op : Char) (pv : List Char)
    (m : ErrMsg)
    (hs : e.state ≠ .ERROR) (hop : e.operator = some op)
    (hpv : e.previousValue = some pv)
    (hfail : dispatchOp op (binVal pv) (binVal e.currentValue) = .error m) :
    calculate e = { e with state := .ERROR, errorMessage := some m } ∧
    (calculate e).previousValue = e.previousValue ∧
    (calculate e).currentValue = e.currentValue ∧
    (calculate e).operator = e.operator := by
  have h := calculate_error_aux e op pv m hs hop hpv hfail
  rw [h]
  exact ⟨rfl, rfl, rfl, rfl⟩

/-- Witness for C7: division by zero (`1 / 0`). -/
theorem calculate_failure_spec_witness :
    calculate ⟨.INPUT, ['0'], some ['1'], some '/', none, false, []⟩
      = { (⟨.INPUT, ['0'], some ['1'], some '/', none, false, []⟩ :
            CalculatorEngine) with
          state := .ERROR, errorMessage := some .divisionByZero } ∧
    (calculate ⟨.INPUT, ['0'], some ['1'], some '/', none, false, []⟩).previousValue
      = (⟨.INPUT, ['0'], some ['1'], some '/', none, false, []⟩ :
          CalculatorEngine).previousValue ∧
    (calculate ⟨.INPUT, ['0'], some ['1'], some '/', none, false, []⟩).currentValue
      = (⟨.INPUT, ['0'], some ['1'], some '/', none, false, []⟩ :
          CalculatorEngine).currentValue ∧
    (calculate ⟨.INPUT, ['0'], some ['1'], some '/', none, false, []⟩).operator
      = (⟨.INPUT, ['0'], some ['1'], some '/', none, false, []⟩ :
          CalculatorEngine).operator :=
  calculate_failure_spec _ '/' ['1'] .divisionByZero (by decide) rfl rfl rfl

/-- C10: when the implicit `calculate()` run by `inputOperator` fails, the
newly supplied operator is not stored — the call returns the `ERROR` state
and `previousValue`/`operator` keep the values of the failed pending
calculation. -/
theorem inputOperator_failure_spec (e : CalculatorEngine) (newOp op0 : Char)
    (pv : List Char) (m : ErrMsg)
    (hs : e.state ≠ .ERROR)
    (hv : validateOperator newOp = true)
    (hop : e.operator = some op0)
    (hfresh : e.isNewInput = false)
    (hpv : e.previousValue = some pv)
    (hfail : dispatchOp op0 (binVal pv) (binVal e.currentValue) = .error m) :
    inputOperator e newOp = { e with state := .ERROR, errorMessage := some m } ∧
    (inputOperator e newOp).operator = some op0 ∧
    (inputOperator e newOp).previousValue = some pv ∧
    (inputOperator e newOp).state = .ERROR := by
  have hcalc := calculate_error_aux e op0 pv m hs hop hpv hfail
  have h1 : (if e.operator ≠ none ∧ e.isNewInput = false then calculate e else e)
      = calculate e :=
    if_pos ⟨by simp [hop], hfresh⟩
  have hmain : inputOperator e newOp
      = { e with state := .ERROR, errorMessage := some m } := by
    unfold inputOperator storePending
    rw [if_neg hs, if_pos hv, h1, hcalc]
    simp
  rw [hmain]
  exact ⟨rfl, hop ▸ rfl, hpv ▸ rfl, rfl⟩

/-- Witness for C10: pending `1 - 10` fails with `NegativeResult` when `'+'`
arrives; the `'+'` is not stored. -/
theorem inputOperator_failure_spec_witness :
    inputOperator ⟨.INPUT, ['1', '0'], some ['1'], some '-', none, false, []⟩ '+'
      = { (⟨.INPUT, ['1', '0'], some ['1'], some '-', none, false, []⟩ :
            CalculatorEngine) with
          state := .ERROR, errorMessage := some .negativeResult } ∧
    (inputOperator ⟨.INPUT, ['1', '0'], some ['1'], some '-', none, false, []⟩ '+').operator
      = some '-' ∧
    (inputOperator ⟨.INPUT, ['1', '0'], some ['1'], some '-', none, false, []⟩ '+').previousValue
      = some ['1'] ∧
    (inputOperator ⟨.INPUT, ['1', '0'], some ['1'], some '-', none, false, []⟩ '+').state
      = .ERROR :=
  inputOperator_failure_spec _ '+' '-' ['1'] .negativeResult
    (by decide) (by decide) rfl rfl rfl rfl

end Engine
